import Mathlib

/-!
# Verification of the dead-page checker (`qa/book/dead_pages.py`)

A shallow embedding of the dead-page checking pipeline, and proofs of its
specified properties.

Modelling conventions:

* A filesystem path is modelled in canonical form as the list of its name
  components under the root (`AbsPath`), mirroring `pathlib.PurePosixPath`
  parts (minus the leading root part, which every absolute path shares).
  The filesystem is assumed symlink-free, so `Path.resolve()` is pure path
  algebra: `.` components are dropped at construction and `..` components
  pop the previous component (at the root, `..` stays at the root).
* The book tree is modelled by a `BookTree`: whether the book-source
  directory exists, its canonical path, the list of files under it (as
  component lists relative to the book source, in directory-walk order),
  and the text of the table-of-contents file.
* The process's observable behaviour is a `RunResult`: exit code plus the
  lines written to standard output and standard error.
* Python compares `pathlib.Path` values by their tuple of (case-sensitive,
  for POSIX) parts, each part by Unicode code points; this is `pathLe`
  below.  Python string operations are modelled over `String.data`.
-/

namespace DeadPages

/-- A canonical absolute path: its name components under the filesystem root. -/
abbrev AbsPath := List String

/-! ## Path ordering

`sorted()` on `pathlib.Path` values compares the tuples of parts
(`PurePath.__lt__` compares `_cparts`), each part as a string by Unicode
code points.  `charListLt` is strict code-point order on characters;
`strLtB` lifts it to strings; `pathLe` is the (non-strict) lexicographic
order on component lists. -/

/-- Strict lexicographic order on character lists (Unicode code points). -/
def charListLt : List Char → List Char → Bool
  | _, [] => false
  | [], _ :: _ => true
  | a :: as, b :: bs =>
    if a < b then true
    else if b < a then false
    else charListLt as bs

/-- Strict order on strings, by code points, as Python compares `str`. -/
def strLtB (a b : String) : Bool := charListLt a.data b.data

/-- Lexicographic (non-strict) order on paths as component lists, as Python
compares tuples of path parts. -/
def pathLe : List String → List String → Bool
  | [], _ => true
  | _ :: _, [] => false
  | a :: as, b :: bs =>
    if strLtB a b then true
    else if strLtB b a then false
    else pathLe as bs

/-! ## Path algebra: `PurePosixPath` construction, `/` join, `resolve()` -/

/-- Split a character list at a separator character. -/
def splitOnChar (sep : Char) : List Char → List (List Char)
  | [] => [[]]
  | c :: cs =>
    let r := splitOnChar sep cs
    if c = sep then [] :: r
    else (c :: r.headD []) :: r.tail

/-- The parts of a path string, as `pathlib.PurePosixPath` parses it: split
on `/`, dropping empty components and `.` components (keeping `..`). -/
def splitComponents (t : String) : List String :=
  ((splitOnChar '/' t.data).map (fun cs => String.mk cs)).filter
    (fun c => ¬ (c = "" ∨ c = "."))

/-- Whether a path string is absolute (`PurePath.is_absolute`, POSIX). -/
def isAbsolute (t : String) : Bool :=
  match t.data with
  | '/' :: _ => true
  | _ => false

/-- The `/` operator of `pathlib.Path`: joining onto an absolute right
operand discards the left operand entirely. -/
def joinPath (base : AbsPath) (t : String) : List String :=
  if isAbsolute t then splitComponents t else base ++ splitComponents t

/-- `Path.resolve()` on a symlink-free filesystem: fold the components,
with `..` popping the last component (at the root it stays at the root).
`.` components never occur in `pathlib` parts. -/
def resolveComps (cs : List String) : AbsPath :=
  cs.foldl (fun acc c => if c = ".." then acc.dropLast else acc ++ [c]) []

/-- `(dir / target).resolve()` for a canonical absolute `dir`. -/
def resolveJoin (dir : AbsPath) (t : String) : AbsPath :=
  resolveComps (joinPath dir t)

/-! ## String helpers modelling Python `str` methods -/

/-- Python `s.startswith(pre)`. -/
def strStartsWith (s pre : String) : Bool := pre.data.isPrefixOf s.data

/-- Python `s.endswith(suf)`; also the `rglob('*.md')` name filter, since
the pattern `*.md` matches exactly the names ending in `.md`. -/
def strEndsWith (s suf : String) : Bool := suf.data.isSuffixOf s.data

/-! ## The Reference Extractor (`parse_summary`) -/

/-- One attempt to match the regular expression
`\[([^\]]+)\]\(([^)]+)\)` at the head of the character list, returning
group 2 (the link target) and the characters after the match.  Because each
character class excludes its closing delimiter, greedy matching is simply
the maximal run not containing the delimiter, followed by the literal
delimiter; no backtracking can occur. -/
def matchLink : List Char → Option (List Char × List Char)
  | '[' :: cs =>
    match cs.dropWhile (fun c => c ≠ ']') with
    | ']' :: '(' :: cs2 =>
      if cs.takeWhile (fun c => c ≠ ']') = [] then none
      else
        match cs2.dropWhile (fun c => c ≠ ')') with
        | ')' :: rest =>
          if cs2.takeWhile (fun c => c ≠ ')') = [] then none
          else some (cs2.takeWhile (fun c => c ≠ ')'), rest)
        | _ => none
    | _ => none
  | _ => none

/-- Scan for all non-overlapping matches, left to right, as
`re.finditer` does: at each position try the pattern; after a match resume
immediately after it, otherwise advance one character.  `fuel` bounds the
recursion and is always called with at least the list length, which
suffices since every step consumes at least one character. -/
def scanAux : Nat → List Char → List (List Char)
  | 0, _ => []
  | _, [] => []
  | fuel + 1, c :: cs =>
    match matchLink (c :: cs) with
    | some (t, rest) => t :: scanAux fuel rest
    | none => scanAux fuel cs

/-- All targets (group 2) of `re.finditer(r'\[([^\]]+)\]\(([^)]+)\)', content)`,
in order of occurrence. -/
def scanLinks (content : String) : List String :=
  (scanAux content.data.length content.data).map (fun cs => String.mk cs)

theorem length_dropWhile_le (p : Char → Bool) (l : List Char) :
    (l.dropWhile p).length ≤ l.length := by
  induction l with
  | nil => simp
  | cons a l ih =>
    rw [List.dropWhile_cons]
    by_cases h : p a = true
    · rw [if_pos h]; exact Nat.le_succ_of_le ih
    · rw [if_neg h]

/-- A successful match consumes at least four characters beyond the rest. -/
theorem matchLink_length : ∀ {l t rest : List Char},
    matchLink l = some (t, rest) → rest.length + 4 ≤ l.length := by
  intro l t rest h
  rw [matchLink.eq_def] at h
  split at h
  next cs =>
    split at h
    next cs2 heq =>
      split at h
      next => exact absurd h (by simp)
      next =>
        split at h
        next rest2 heq2 =>
          split at h
          next => exact absurd h (by simp)
          next =>
            cases h
            have l1 : cs2.length + 2 ≤ cs.length := by
              have hd := length_dropWhile_le (fun c => c ≠ ']') cs
              rw [heq] at hd
              simpa using hd
            have l2 : rest.length + 1 ≤ cs2.length := by
              have hd := length_dropWhile_le (fun c => c ≠ ')') cs2
              rw [heq2] at hd
              simpa using hd
            simp only [List.length_cons]
            omega
        next => exact absurd h (by simp)
    next => exact absurd h (by simp)
  next => exact absurd h (by simp)

theorem scanAux_nil (fuel : Nat) : scanAux fuel [] = [] := by
  cases fuel <;> rfl

theorem scanAux_cons (fuel : Nat) (c : Char) (cs : List Char) :
    scanAux (fuel + 1) (c :: cs) =
      match matchLink (c :: cs) with
      | some (t, rest) => t :: scanAux fuel rest
      | none => scanAux fuel cs := rfl

/-- The fuel used by `scanLinks` is irrelevant as soon as it covers the
input length: the scan is never truncated. -/
theorem scanAux_fuel : ∀ (f₁ f₂ : Nat) (l : List Char),
    l.length ≤ f₁ → l.length ≤ f₂ → scanAux f₁ l = scanAux f₂ l := by
  intro f₁
  induction f₁ with
  | zero =>
    intro f₂ l h1 _
    rw [List.length_eq_zero.mp (Nat.le_zero.mp h1), scanAux_nil, scanAux_nil]
  | succ f ih =>
    intro f₂ l h1 h2
    cases l with
    | nil => rw [scanAux_nil, scanAux_nil]
    | cons c cs =>
      cases f₂ with
      | zero => simp at h2
      | succ f' =>
        rw [scanAux_cons, scanAux_cons]
        cases hm : matchLink (c :: cs) with
        | some tr =>
          obtain ⟨t, rest⟩ := tr
          have hlen := matchLink_length hm
          simp only [List.length_cons] at hlen h1 h2
          show t :: scanAux f rest = t :: scanAux f' rest
          rw [ih f' rest (by omega) (by omega)]
        | none =>
          simp only [List.length_cons] at h1 h2
          exact ih f' cs (by omega) (by omega)

/-- Fragment stripping: `if '#' in target: target = target.split('#')[0]` —
the prefix of the target before its first `#` (the whole target when it has
no `#`). -/
def stripFrag (t : String) : String :=
  if '#' ∈ t.data then String.mk (t.data.takeWhile (fun c => c ≠ '#')) else t

/-- External-URL test: `target.startswith(('http://', 'https://', 'mailto:'))`. -/
def isExternal (t : String) : Bool :=
  strStartsWith t "http://" || strStartsWith t "https://" || strStartsWith t "mailto:"

/-- The per-target processing of the `parse_summary` loop body: strip the
fragment, then discard external URLs and empty targets. -/
def processTarget (t : String) : Option String :=
  if isExternal (stripFrag t) then none
  else if stripFrag t = "" then none
  else some (stripFrag t)

/-- One loop iteration of `parse_summary`: process the target and, when it
is kept, insert its resolution against the summary file's directory. -/
def addTarget (dir : AbsPath) (files : Finset AbsPath) (t : String) : Finset AbsPath :=
  match processTarget t with
  | some t1 => insert (resolveJoin dir t1) files
  | none => files

/-- `parse_summary`: extract every link target from the table-of-contents
text and collect the set of resolved paths.  `summaryDir` is the canonical
path of `summary_path.parent` (the book source directory). -/
def parse_summary (summaryDir : AbsPath) (content : String) : Finset AbsPath :=
  (scanLinks content).foldl (addTarget summaryDir) ∅

/-! ## The Tree Scanner (`find_dead_pages`) -/

/-- Sorting a list of paths, as Python `sorted` on `Path` values: by the
lexicographic order on part tuples. -/
def sortPaths (l : List AbsPath) : List AbsPath :=
  List.insertionSort (fun a b => pathLe a b = true) l

/-- `find_dead_pages`: walk the tree below `book_src` (given as the list of
file paths relative to it, in walk order), keep the entries whose filename
ends in `.md` (the `rglob('*.md')` filter), resolve each, skip any file
whose (unresolved) filename is exactly `SUMMARY.md`, keep those whose
resolved path is not in `summary_files`, and sort the result. -/
def find_dead_pages (book_src : AbsPath) (fsRel : List (List String))
    (summary_files : Finset AbsPath) : List AbsPath :=
  sortPaths <|
    (((fsRel.filter (fun rel => strEndsWith (rel.getLastD "") ".md")).filter
        (fun rel => rel.getLastD "" ≠ "SUMMARY.md")).map
      (fun rel => resolveComps (book_src ++ rel))).filter
      (fun p => p ∉ summary_files)

/-! ## The Locator and `main` -/

/-- Rendering of a canonical absolute path, as `str(Path(...))`. -/
def pathStr (p : AbsPath) : String :=
  p.foldl (fun acc c => acc ++ "/" ++ c) ""

/-- Rendering of `str(page.relative_to(book_src))` when `book_src` is a
prefix of `page`. -/
def relStr (root : AbsPath) (p : AbsPath) : String :=
  match p.drop root.length with
  | [] => "."
  | c :: rest => rest.foldl (fun acc x => acc ++ "/" ++ x) c

/-- `find_book_src`: the book source directory is a fixed offset from the
script's own (resolved) location; raise `FileNotFoundError` when it does
not exist.  The script location is abstracted into the computed canonical
path `bookSrc` plus the existence bit `present`. -/
def find_book_src (bookSrc : AbsPath) (present : Bool) : Except String AbsPath :=
  if present then Except.ok bookSrc
  else Except.error ("Book source directory not found at " ++ pathStr bookSrc)

/-- The state of the world a run observes: whether the book source
directory exists, its canonical path, the files below it (component lists
relative to it, in directory-walk order), and the table-of-contents text. -/
structure BookTree where
  bookSrcExists : Bool
  bookSrc : AbsPath
  files : List (List String)
  summaryContent : String
deriving DecidableEq

/-- The observable outcome of a run: exit status and the lines written to
standard output and standard error. -/
structure RunResult where
  exitCode : Nat
  stdout : List String
  stderr : List String
deriving DecidableEq

/-- `main`: locate the book source (exit 1 to stderr on failure), check
`SUMMARY.md` exists in it (exit 1 to stderr on failure), parse the
table of contents, find the dead pages, report, and exit 0 exactly when no
dead page was found. -/
def run (t : BookTree) : RunResult :=
  match find_book_src t.bookSrc t.bookSrcExists with
  | Except.error e =>
    { exitCode := 1, stdout := [], stderr := ["Error: " ++ e] }
  | Except.ok book_src =>
    if ["SUMMARY.md"] ∉ t.files then
      { exitCode := 1, stdout := [],
        stderr := ["Error: SUMMARY.md not found at " ++ pathStr (book_src ++ ["SUMMARY.md"])] }
    else
      let summary_files := parse_summary book_src t.summaryContent
      let dead_pages := find_dead_pages book_src t.files summary_files
      let header := ["Checking for dead pages in: " ++ pathStr book_src,
                     "Found " ++ toString summary_files.card ++ " files in SUMMARY.md"]
      if dead_pages.isEmpty then
        { exitCode := 0, stdout := header ++ ["", "No dead pages found!"], stderr := [] }
      else
        { exitCode := 1,
          stdout := header ++
            ["", "Found " ++ toString dead_pages.length ++ " dead page(s) (not in SUMMARY.md):", ""] ++
            dead_pages.map (fun p => "  " ++ relStr book_src p),
          stderr := [] }

/-! ## Well-formedness of walked trees

A name component produced by a real directory walk is never empty, never
`.` or `..`, and contains no separator; a walked relative path has at
least one component. -/

/-- A real filename component. -/
def wfComp (c : String) : Prop :=
  c ≠ "" ∧ c ≠ "." ∧ c ≠ ".." ∧ '/' ∉ c.data

/-- A canonical absolute path: every component is a real filename. -/
def wfPath (p : List String) : Prop := ∀ c ∈ p, wfComp c

/-- A relative path produced by a directory walk. -/
def wfRel (r : List String) : Prop := r ≠ [] ∧ wfPath r

/-- A well-formed walked tree. -/
def wfTree (fs : List (List String)) : Prop := ∀ r ∈ fs, wfRel r

instance (c : String) : Decidable (wfComp c) :=
  decidable_of_iff (c ≠ "" ∧ c ≠ "." ∧ c ≠ ".." ∧ '/' ∉ c.data) Iff.rfl

instance (p : List String) : Decidable (wfPath p) :=
  decidable_of_iff (∀ c ∈ p, wfComp c) Iff.rfl

instance (r : List String) : Decidable (wfRel r) :=
  decidable_of_iff (r ≠ [] ∧ wfPath r) Iff.rfl

instance (fs : List (List String)) : Decidable (wfTree fs) :=
  decidable_of_iff (∀ r ∈ fs, wfRel r) Iff.rfl

/-! ## Order properties of the path comparison -/

theorem charListLt_irrefl (l : List Char) : charListLt l l = false := by
  induction l with
  | nil => rfl
  | cons a as ih => simp [charListLt, lt_irrefl, ih]

theorem charListLt_asymm : ∀ {l₁ l₂ : List Char},
    charListLt l₁ l₂ = true → charListLt l₂ l₁ = false := by
  intro l₁
  induction l₁ with
  | nil =>
    intro l₂ h
    cases l₂ with
    | nil => simp [charListLt] at h
    | cons b bs => rfl
  | cons a as ih =>
    intro l₂ h
    cases l₂ with
    | nil => simp [charListLt] at h
    | cons b bs =>
      by_cases hab : a < b
      · have hba : ¬ b < a := lt_asymm hab
        simp [charListLt, hab, hba]
      · by_cases hba : b < a
        · simp [charListLt, hab, hba] at h
        · simp only [charListLt, if_neg hab, if_neg hba] at h
          simp only [charListLt, if_neg hab, if_neg hba]
          exact ih h

theorem charListLt_eq : ∀ {l₁ l₂ : List Char},
    charListLt l₁ l₂ = false → charListLt l₂ l₁ = false → l₁ = l₂ := by
  intro l₁
  induction l₁ with
  | nil =>
    intro l₂ h _
    cases l₂ with
    | nil => rfl
    | cons b bs => simp [charListLt] at h
  | cons a as ih =>
    intro l₂ h h'
    cases l₂ with
    | nil => simp [charListLt] at h'
    | cons b bs =>
      by_cases hab : a < b
      · simp [charListLt, hab] at h
      · by_cases hba : b < a
        · simp [charListLt, hab, hba] at h'
        · have hab' : a = b := le_antisymm (not_lt.mp hba) (not_lt.mp hab)
          subst hab'
          simp only [charListLt, if_neg hab, lt_irrefl, if_neg (lt_irrefl a)] at h h'
          rw [ih h h']

theorem charListLt_trans : ∀ {l₁ l₂ l₃ : List Char},
    charListLt l₁ l₂ = true → charListLt l₂ l₃ = true → charListLt l₁ l₃ = true := by
  intro l₁
  induction l₁ with
  | nil =>
    intro l₂ l₃ h h'
    cases l₂ with
    | nil => simp [charListLt] at h
    | cons b bs =>
      cases l₃ with
      | nil => simp [charListLt] at h'
      | cons c cs => rfl
  | cons a as ih =>
    intro l₂ l₃ h h'
    cases l₂ with
    | nil => simp [charListLt] at h
    | cons b bs =>
      cases l₃ with
      | nil => simp [charListLt] at h'
      | cons c cs =>
        by_cases hab : a < b <;> by_cases hbc : b < c
        · have hac : a < c := lt_trans hab hbc
          simp [charListLt, hac]
        · by_cases hcb : c < b
          · simp [charListLt, hbc, hcb] at h'
          · have hbc' : b = c := le_antisymm (not_lt.mp hcb) (not_lt.mp hbc)
            subst hbc'
            simp [charListLt, hab]
        · by_cases hba : b < a
          · simp [charListLt, hab, hba] at h
          · have hab' : a = b := le_antisymm (not_lt.mp hba) (not_lt.mp hab)
            subst hab'
            simp [charListLt, hbc]
        · by_cases hba : b < a
          · simp [charListLt, hab, hba] at h
          · have hab' : a = b := le_antisymm (not_lt.mp hba) (not_lt.mp hab)
            subst hab'
            by_cases hca : c < a
            · simp [charListLt, hbc, hca] at h'
            · have hac' : a = c := le_antisymm (not_lt.mp hca) (not_lt.mp hbc)
              subst hac'
              simp only [charListLt, if_neg hab, if_neg (lt_irrefl a)] at h h' ⊢
              exact ih h h'

theorem strLtB_eq {a b : String} (h : strLtB a b = false) (h' : strLtB b a = false) :
    a = b :=
  String.ext (charListLt_eq h h')

theorem pathLe_cons_cons (x y : String) (as bs : List String) :
    pathLe (x :: as) (y :: bs) =
      if strLtB x y then true else if strLtB y x then false else pathLe as bs := rfl

theorem pathLe_total : ∀ a b : List String, pathLe a b = true ∨ pathLe b a = true := by
  intro a
  induction a with
  | nil => intro b; left; rfl
  | cons x as ih =>
    intro b
    cases b with
    | nil => right; rfl
    | cons y bs =>
      by_cases hxy : strLtB x y = true
      · left; rw [pathLe_cons_cons, if_pos hxy]
      · by_cases hyx : strLtB y x = true
        · right; rw [pathLe_cons_cons, if_pos hyx]
        · have hxy' : x = y :=
            strLtB_eq (Bool.not_eq_true _ ▸ hxy) (Bool.not_eq_true _ ▸ hyx)
          subst hxy'
          simp only [pathLe_cons_cons, if_neg hxy]
          exact ih bs

theorem pathLe_trans : ∀ a b c : List String,
    pathLe a b = true → pathLe b c = true → pathLe a c = true := by
  intro a
  induction a with
  | nil => intro b c _ _; rfl
  | cons x as ih =>
    intro b c h h'
    cases b with
    | nil => simp [pathLe] at h
    | cons y bs =>
      cases c with
      | nil => simp [pathLe] at h'
      | cons z cs =>
        by_cases hxy : strLtB x y = true
        · by_cases hyz : strLtB y z = true
          · have hxz : strLtB x z = true := charListLt_trans hxy hyz
            rw [pathLe_cons_cons, if_pos hxz]
          · by_cases hzy : strLtB z y = true
            · rw [pathLe_cons_cons, if_neg hyz, if_pos hzy] at h'
              exact absurd h' (by simp)
            · have : y = z :=
                strLtB_eq (Bool.not_eq_true _ ▸ hyz) (Bool.not_eq_true _ ▸ hzy)
              subst this
              rw [pathLe_cons_cons, if_pos hxy]
        · by_cases hyx : strLtB y x = true
          · rw [pathLe_cons_cons, if_neg hxy, if_pos hyx] at h
            exact absurd h (by simp)
          · have : x = y :=
              strLtB_eq (Bool.not_eq_true _ ▸ hxy) (Bool.not_eq_true _ ▸ hyx)
            subst this
            rw [pathLe_cons_cons, if_neg hxy, if_neg hxy] at h
            by_cases hxz : strLtB x z = true
            · rw [pathLe_cons_cons, if_pos hxz]
            · by_cases hzx : strLtB z x = true
              · rw [pathLe_cons_cons, if_neg hxz, if_pos hzx] at h'
                exact absurd h' (by simp)
              · have : x = z :=
                  strLtB_eq (Bool.not_eq_true _ ▸ hxz) (Bool.not_eq_true _ ▸ hzx)
                subst this
                rw [pathLe_cons_cons, if_neg hxz, if_neg hxz] at h' ⊢
                exact ih bs cs h h'

theorem pathLe_antisymm : ∀ a b : List String,
    pathLe a b = true → pathLe b a = true → a = b := by
  intro a
  induction a with
  | nil =>
    intro b _ h'
    cases b with
    | nil => rfl
    | cons y bs => simp [pathLe] at h'
  | cons x as ih =>
    intro b h h'
    cases b with
    | nil => simp [pathLe] at h
    | cons y bs =>
      by_cases hxy : strLtB x y = true
      · have hyx : strLtB y x = false := charListLt_asymm hxy
        rw [pathLe_cons_cons, if_neg (by simp [hyx]), if_pos hxy] at h'
        exact absurd h' (by simp)
      · by_cases hyx : strLtB y x = true
        · rw [pathLe_cons_cons, if_neg hxy, if_pos hyx] at h
          exact absurd h (by simp)
        · have hxy' : x = y :=
            strLtB_eq (Bool.not_eq_true _ ▸ hxy) (Bool.not_eq_true _ ▸ hyx)
          subst hxy'
          rw [pathLe_cons_cons, if_neg hxy, if_neg hxy] at h
          rw [pathLe_cons_cons, if_neg hxy, if_neg hxy] at h'
          rw [ih bs h h']

instance : IsTotal (List String) (fun a b => pathLe a b = true) := ⟨pathLe_total⟩

instance : IsTrans (List String) (fun a b => pathLe a b = true) := ⟨pathLe_trans⟩

instance : IsAntisymm (List String) (fun a b => pathLe a b = true) := ⟨pathLe_antisymm⟩

theorem sortPaths_sorted (l : List AbsPath) :
    (sortPaths l).Sorted (fun a b => pathLe a b = true) :=
  List.sorted_insertionSort _ l

theorem sortPaths_perm (l : List AbsPath) : (sortPaths l).Perm l :=
  List.perm_insertionSort _ l

/-! ## Resolution is the identity on canonical paths -/

theorem foldl_resolve_plain :
    ∀ (cs : List String), (∀ c ∈ cs, c ≠ "..") →
      ∀ acc : List String,
        cs.foldl (fun acc c => if c = ".." then acc.dropLast else acc ++ [c]) acc = acc ++ cs := by
  intro cs
  induction cs with
  | nil => intro _ acc; simp
  | cons c cs ih =>
    intro h acc
    have hc : c ≠ ".." := h c (by simp)
    rw [List.foldl_cons, if_neg hc, ih (fun x hx => h x (by simp [hx]))]
    simp

theorem resolveComps_plain {cs : List String} (h : ∀ c ∈ cs, c ≠ "..") :
    resolveComps cs = cs := by
  simpa using foldl_resolve_plain cs h []

theorem resolveComps_wf_append {b rel : List String} (hb : wfPath b) (hrel : wfPath rel) :
    resolveComps (b ++ rel) = b ++ rel := by
  apply resolveComps_plain
  intro c hc
  rcases List.mem_append.mp hc with h | h
  · exact (hb c h).2.2.1
  · exact (hrel c h).2.2.1

/-! ## Membership in the reference set -/

theorem mem_foldl_addTarget (d : AbsPath) :
    ∀ (ts : List String) (init : Finset AbsPath) (x : AbsPath),
      x ∈ ts.foldl (addTarget d) init ↔
        x ∈ init ∨ ∃ t ∈ ts, ∃ t1, processTarget t = some t1 ∧ x = resolveJoin d t1 := by
  intro ts
  induction ts with
  | nil => intro init x; simp
  | cons t ts ih =>
    intro init x
    rw [List.foldl_cons, ih]
    cases hp : processTarget t with
    | none =>
      simp only [addTarget, hp]
      constructor
      · rintro (hx | hx)
        · exact Or.inl hx
        · right; obtain ⟨u, hu, t1, ht1, hx⟩ := hx; exact ⟨u, by simp [hu], t1, ht1, hx⟩
      · rintro (hx | ⟨u, hu, t1, ht1, hx⟩)
        · exact Or.inl hx
        · rcases List.mem_cons.mp hu with rfl | hu
          · rw [hp] at ht1; exact absurd ht1 (by simp)
          · exact Or.inr ⟨u, hu, t1, ht1, hx⟩
    | some t1 =>
      simp only [addTarget, hp, Finset.mem_insert]
      constructor
      · rintro (⟨hx | hx⟩ | hx)
        · exact Or.inr ⟨t, by simp, t1, hp, hx⟩
        · exact Or.inl hx
        · right; obtain ⟨u, hu, u1, hu1, hx⟩ := hx; exact ⟨u, by simp [hu], u1, hu1, hx⟩
      · rintro (hx | ⟨u, hu, u1, hu1, hx⟩)
        · exact Or.inl (Or.inr hx)
        · rcases List.mem_cons.mp hu with rfl | hu
          · rw [hp] at hu1
            obtain rfl : t1 = u1 := by injection hu1
            exact Or.inl (Or.inl hx)
          · exact Or.inr ⟨u, hu, u1, hu1, hx⟩

theorem mem_parse_summary {d : AbsPath} {content : String} {x : AbsPath} :
    x ∈ parse_summary d content ↔
      ∃ t ∈ scanLinks content, ∃ t1, processTarget t = some t1 ∧ x = resolveJoin d t1 := by
  rw [parse_summary, mem_foldl_addTarget]
  simp

/-- When `processTarget` keeps a target, it returns the stripped target,
which is neither external nor empty. -/
theorem processTarget_some {t t1 : String} (h : processTarget t = some t1) :
    t1 = stripFrag t ∧ isExternal (stripFrag t) = false ∧ stripFrag t ≠ "" := by
  unfold processTarget at h
  by_cases h1 : isExternal (stripFrag t) = true
  · rw [if_pos h1] at h; exact absurd h (by simp)
  · rw [if_neg h1] at h
    by_cases h2 : stripFrag t = ""
    · rw [if_pos h2] at h; exact absurd h (by simp)
    · rw [if_neg h2] at h
      injection h with h3
      exact ⟨h3.symm, by simpa using h1, h2⟩

/-! ## The last component of an appended path -/

theorem getLastD_append {b r : List String} (h : r ≠ []) (d : String) :
    (b ++ r).getLastD d = r.getLastD d := by
  cases r with
  | nil => exact absurd rfl h
  | cons c cs =>
    rw [List.getLastD_eq_getLast?, List.getLastD_eq_getLast?, List.getLast?_append]
    cases hl : (c :: cs).getLast? with
    | none => simp [List.getLast?_eq_none_iff] at hl
    | some v => simp

/-- Sanity: the scanner extracts targets in order, skipping non-links. -/
example : scanLinks "# T\n- [Intro](intro.md)\n- [G](guide/start.md#top)\n" =
    ["intro.md", "guide/start.md#top"] := by decide

/-- Sanity: resolution of a relative target with `..` and `.`. -/
example : resolveJoin ["h", "book", "src"] "./a/../b.md" = ["h", "book", "src", "b.md"] := by
  decide

/-- Sanity: an empty label or an empty target is no match; a fragment-only
target is matched (and later discarded as empty after stripping). -/
example : scanLinks "[](x.md) [a]() [b](#frag) [c](y.md)" = ["#frag", "y.md"] := by decide

/-- Sanity: a fragment-only link contributes nothing to the reference set. -/
example : parse_summary ["b"] "[b](#frag)" = ∅ := by decide

/-- Membership is invariant under the final sort. -/
theorem mem_sortPaths {p : AbsPath} {l : List AbsPath} : p ∈ sortPaths l ↔ p ∈ l :=
  (sortPaths_perm l).mem_iff

/-! ## Equation lemmas for `run` -/

/-- Outcome of a run whose book source directory is missing. -/
theorem run_locator_failed (t : BookTree) (h : t.bookSrcExists = false) :
    run t = { exitCode := 1, stdout := [],
              stderr := ["Error: Book source directory not found at " ++ pathStr t.bookSrc] } := by
  unfold run find_book_src
  rw [h]
  rfl

/-- Outcome of a run whose book source directory exists but holds no
`SUMMARY.md`. -/
theorem run_summary_missing (t : BookTree) (h1 : t.bookSrcExists = true)
    (h2 : ["SUMMARY.md"] ∉ t.files) :
    run t = { exitCode := 1, stdout := [],
              stderr := ["Error: SUMMARY.md not found at " ++
                pathStr (t.bookSrc ++ ["SUMMARY.md"])] } := by
  unfold run find_book_src
  rw [h1, if_pos rfl]
  exact if_pos h2

/-- Outcome of a run past the locator: report, then exit by whether the
dead-page list is empty. -/
theorem run_ok (t : BookTree) (h1 : t.bookSrcExists = true)
    (h2 : ["SUMMARY.md"] ∈ t.files) :
    run t =
      (if (find_dead_pages t.bookSrc t.files
            (parse_summary t.bookSrc t.summaryContent)).isEmpty then
        { exitCode := 0,
          stdout := ["Checking for dead pages in: " ++ pathStr t.bookSrc,
            "Found " ++ toString (parse_summary t.bookSrc t.summaryContent).card ++
              " files in SUMMARY.md", "", "No dead pages found!"],
          stderr := [] }
      else
        { exitCode := 1,
          stdout := ["Checking for dead pages in: " ++ pathStr t.bookSrc,
            "Found " ++ toString (parse_summary t.bookSrc t.summaryContent).card ++
              " files in SUMMARY.md", "",
            "Found " ++ toString (find_dead_pages t.bookSrc t.files
                (parse_summary t.bookSrc t.summaryContent)).length ++
              " dead page(s) (not in SUMMARY.md):", ""] ++
            (find_dead_pages t.bookSrc t.files
              (parse_summary t.bookSrc t.summaryContent)).map
              (fun p => "  " ++ relStr t.bookSrc p),
          stderr := [] }) := by
  unfold run find_book_src
  rw [h1, if_pos rfl]
  exact if_neg (not_not_intro h2)

/-! ## C3 — locator failure -/

/-- C3: when the resolved book source path does not exist, the locator
fails with the not-found error carrying the attempted path; the run
reports it on standard error only (standard output stays empty) and exits
with status 1, producing no other outcome. -/
theorem locator_failure_reported (t : BookTree) (h : t.bookSrcExists = false) :
    run t = { exitCode := 1, stdout := [],
              stderr := ["Error: Book source directory not found at " ++ pathStr t.bookSrc] } :=
  run_locator_failed t h

/-- C3 witness: a concrete tree whose book source directory is absent. -/
theorem locator_failure_reported_witness :
    (BookTree.mk false ["home", "book", "src"] [["intro.md"]] "[a](intro.md)").bookSrcExists
        = false ∧
    run (BookTree.mk false ["home", "book", "src"] [["intro.md"]] "[a](intro.md)") =
      { exitCode := 1, stdout := [],
        stderr := ["Error: Book source directory not found at /home/book/src"] } := by
  refine ⟨rfl, ?_⟩
  rw [locator_failure_reported _ rfl]
  decide

/-! ## C9 — absolute link targets -/

/-- C9: an absolute link target bypasses relative resolution entirely:
joining it onto the summary file's directory discards that directory, so
the inserted path is the canonicalization of the absolute target itself,
whatever the directory is; concretely, `parse_summary` inserts
`/etc/notes.md` as-is for any summary directory. -/
theorem absolute_target_bypass (d₁ d₂ : AbsPath) (t : String)
    (h : isAbsolute t = true) :
    resolveJoin d₁ t = resolveComps (splitComponents t) ∧
    resolveJoin d₁ t = resolveJoin d₂ t ∧
    parse_summary d₁ "[a](/etc/notes.md)" = {["etc", "notes.md"]} := by
  unfold resolveJoin joinPath
  rw [if_pos h, if_pos h]
  exact ⟨rfl, rfl, rfl⟩

/-- C9 witness: the absolute target `/etc/notes.md` resolves identically
under two different summary directories. -/
theorem absolute_target_bypass_witness :
    isAbsolute "/etc/notes.md" = true ∧
    (resolveJoin ["home", "user", "book", "src"] "/etc/notes.md" =
        resolveComps (splitComponents "/etc/notes.md") ∧
      resolveJoin ["home", "user", "book", "src"] "/etc/notes.md" =
        resolveJoin [] "/etc/notes.md" ∧
      parse_summary ["home", "user", "book", "src"] "[a](/etc/notes.md)" =
        {["etc", "notes.md"]}) :=
  ⟨by decide, absolute_target_bypass ["home", "user", "book", "src"] [] "/etc/notes.md" (by decide)⟩

/-! ## C10 — no extension filter in the extractor -/

/-- C10: `parse_summary` applies no file-extension filter: the non-`.md`
target of `[pic](images/pic.png)` is resolved and inserted, so the
reference set can contain paths that do not end in `.md`. -/
theorem no_extension_filter :
    parse_summary ["book", "src"] "[pic](images/pic.png)" =
      {["book", "src", "images", "pic.png"]} ∧
    strEndsWith ((["book", "src", "images", "pic.png"] : List String).getLastD "") ".md"
      = false := by
  exact ⟨rfl, rfl⟩

/-! ## C6 — fragment stripping -/

theorem takeWhile_append_stop (l m : List Char) :
    (l ++ '#' :: m).takeWhile (fun c => c ≠ '#') = l.takeWhile (fun c => c ≠ '#') := by
  induction l with
  | nil => simp [List.takeWhile_cons]
  | cons a l ih =>
    by_cases h : a = '#'
    · subst h; simp [List.takeWhile_cons]
    · have ha : decide (a ≠ '#') = true := by simpa using h
      rw [List.cons_append, List.takeWhile_cons, List.takeWhile_cons, if_pos ha, if_pos ha, ih]

theorem takeWhile_no_hash {l : List Char} (h : '#' ∉ l) :
    l.takeWhile (fun c => c ≠ '#') = l := by
  induction l with
  | nil => rfl
  | cons a l ih =>
    have ha : decide (a ≠ '#') = true := by
      simp only [decide_eq_true_eq]
      rintro rfl; exact h (by simp)
    rw [List.takeWhile_cons, if_pos ha, ih (fun hc => h (by simp [hc]))]

/-- C6: everything from the first `#` of a link target onward is stripped
before resolution: appending a `#fragment` to any target leaves the
stripped target — and hence its resolved path — unchanged, and the two
concrete variants `./foo.md#section-2` and `./foo.md` produce identical
reference sets. -/
theorem fragment_stripping (t f : String) (d : AbsPath) :
    stripFrag (t ++ "#" ++ f) = stripFrag t ∧
    resolveJoin d (stripFrag (t ++ "#" ++ f)) = resolveJoin d (stripFrag t) ∧
    parse_summary d "[l](./foo.md#section-2)" = parse_summary d "[l](./foo.md)" := by
  have hsharp : ("#" : String).data = ['#'] := rfl
  have hdata : (t ++ "#" ++ f).data = t.data ++ '#' :: f.data := by
    rw [String.data_append, String.data_append, hsharp, List.append_assoc]
    rfl
  have h1 : stripFrag (t ++ "#" ++ f) = stripFrag t := by
    unfold stripFrag
    rw [hdata]
    have hmem : '#' ∈ t.data ++ '#' :: f.data := by simp
    rw [if_pos hmem, takeWhile_append_stop]
    by_cases h : '#' ∈ t.data
    · rw [if_pos h]
    · rw [if_neg h, takeWhile_no_hash h]
  exact ⟨h1, by rw [h1], rfl⟩

/-! ## C5 — external URLs are discarded -/

/-- C5: every element of the reference set arises from some matched link
target that, after fragment stripping, does not start with `http://`,
`https://` or `mailto:` (and is non-empty): a target whose stripped form
is an external URL, such as `https://example.com/x.md`, is never added. -/
theorem external_targets_discarded (d : AbsPath) (content : String) (x : AbsPath)
    (hx : x ∈ parse_summary d content) :
    ∃ t ∈ scanLinks content, isExternal (stripFrag t) = false ∧ stripFrag t ≠ "" ∧
      x = resolveJoin d (stripFrag t) := by
  obtain ⟨u, hu, t1, hp, hx1⟩ := mem_parse_summary.mp hx
  obtain ⟨rfl, hext, hne⟩ := processTarget_some hp
  exact ⟨u, hu, hext, hne, hx1⟩

/-- C5 witness: in a table of contents holding an external link and a
local one, the single reference-set element comes from the non-external
target. -/
theorem external_targets_discarded_witness :
    (["b", "src", "intro.md"] : AbsPath) ∈
      parse_summary ["b", "src"] "[x](https://example.com/x.md) [i](intro.md)" ∧
    ∃ t ∈ scanLinks "[x](https://example.com/x.md) [i](intro.md)",
      isExternal (stripFrag t) = false ∧ stripFrag t ≠ "" ∧
        (["b", "src", "intro.md"] : AbsPath) = resolveJoin ["b", "src"] (stripFrag t) :=
  ⟨by decide, external_targets_discarded ["b", "src"] _ _ (by decide)⟩

/-! ## C4 — cardinality of the reference set -/

/-- The count `N` of claim C4, taken from the specification's wording: the
distinct link targets after fragment stripping and exclusion of external
URLs and empty targets — before any path resolution. -/
def distinctStrippedTargets (content : String) : Finset String :=
  (((scanLinks content).map stripFrag).filter
    (fun t => isExternal t = false ∧ t ≠ "")).toFinset

/-- C4 counterexample: the targets `./x.md` and `x.md` are distinct after
fragment stripping and external-URL exclusion (so `N = 2`), yet they
resolve to one canonical path and the reference set has exactly 1
element — refuting the claimed count. -/
theorem distinct_targets_counterexample :
    (distinctStrippedTargets "[a](./x.md) [b](x.md)").card = 2 ∧
    (parse_summary ["book", "src"] "[a](./x.md) [b](x.md)").card = 1 := by
  exact ⟨rfl, rfl⟩

/-- C4 (amended): the reference set equals the set of resolved canonical
paths of the retained targets, so its cardinality is the number of
targets distinct after fragment stripping, external-URL and empty-target
exclusion, and resolution to a canonical path; duplicates and fragment
variants of one target contribute exactly one element. -/
theorem parse_summary_resolved_card (d : AbsPath) (content : String) :
    parse_summary d content =
      (((scanLinks content).filterMap processTarget).map (resolveJoin d)).toFinset ∧
    (parse_summary d content).card =
      (((scanLinks content).filterMap processTarget).map (resolveJoin d)).toFinset.card := by
  have h : parse_summary d content =
      (((scanLinks content).filterMap processTarget).map (resolveJoin d)).toFinset := by
    apply Finset.ext
    intro x
    rw [mem_parse_summary]
    simp only [List.mem_toFinset, List.mem_map, List.mem_filterMap]
    constructor
    · rintro ⟨t, ht, t1, hp, rfl⟩
      exact ⟨t1, ⟨t, ht, hp⟩, rfl⟩
    · rintro ⟨t1, ⟨t, ht, hp⟩, rfl⟩
      exact ⟨t, ht, t1, hp, rfl⟩
  exact ⟨h, by rw [h]⟩

/-! ## C7 — `SUMMARY.md` is excluded unconditionally -/

/-- C7: for a well-formed walked tree, no entry of the dead-page list is
named `SUMMARY.md` — whatever the reference set is (in particular when the
table of contents references itself): the check is on the exact filename
only, before the reference-set test. -/
theorem summary_excluded (b : AbsPath) (fs : List (List String)) (refs : Finset AbsPath)
    (hb : wfPath b) (hfs : wfTree fs) :
    ∀ p ∈ find_dead_pages b fs refs, p.getLastD "" ≠ "SUMMARY.md" := by
  intro p hp
  unfold find_dead_pages at hp
  rw [mem_sortPaths, List.mem_filter] at hp
  obtain ⟨hp2, _⟩ := hp
  rw [List.mem_map] at hp2
  obtain ⟨rel, hrel, rfl⟩ := hp2
  rw [List.mem_filter] at hrel
  obtain ⟨hrel1, hname⟩ := hrel
  rw [List.mem_filter] at hrel1
  obtain ⟨hfs1, _⟩ := hrel1
  obtain ⟨hne, hwf⟩ := hfs rel hfs1
  rw [resolveComps_wf_append hb hwf, getLastD_append hne]
  simpa using hname

/-- C7 witness: a tree whose table of contents references `SUMMARY.md`
itself, with a second `SUMMARY.md` nested below; neither is ever reported
dead. -/
theorem summary_excluded_witness :
    wfPath (["home", "book", "src"] : AbsPath) ∧
    wfTree [["SUMMARY.md"], ["intro.md"], ["sub", "SUMMARY.md"]] ∧
    ∀ p ∈ find_dead_pages ["home", "book", "src"]
        [["SUMMARY.md"], ["intro.md"], ["sub", "SUMMARY.md"]]
        (parse_summary ["home", "book", "src"] "[s](SUMMARY.md) [i](intro.md)"),
      p.getLastD "" ≠ "SUMMARY.md" :=
  ⟨by decide, by decide,
    summary_excluded ["home", "book", "src"] _ _ (by decide) (by decide)⟩

/-! ## C1 — characterization of the dead-page list -/

/-- C1: for a well-formed walked tree, the dead-page list is sorted in the
lexicographic path order and duplicate-free, its members are exactly the
canonicalized paths of the walk entries ending in `.md` that are not named
`SUMMARY.md` and whose canonical path is not in the reference set, and
every member is an entry under the book source with extension `.md`. -/
theorem find_dead_pages_spec (b : AbsPath) (fs : List (List String)) (refs : Finset AbsPath)
    (hb : wfPath b) (hfs : wfTree fs) (hnd : fs.Nodup) :
    (find_dead_pages b fs refs).Sorted (fun p q => pathLe p q = true) ∧
    (find_dead_pages b fs refs).Nodup ∧
    (∀ p, p ∈ find_dead_pages b fs refs ↔
      ((∃ rel ∈ fs, strEndsWith (rel.getLastD "") ".md" = true ∧
          rel.getLastD "" ≠ "SUMMARY.md" ∧ p = b ++ rel) ∧ p ∉ refs)) ∧
    (∀ p ∈ find_dead_pages b fs refs,
      strEndsWith (p.getLastD "") ".md" = true ∧ ∃ rel ∈ fs, p = b ++ rel) := by
  have hresolve : ∀ rel ∈ fs, resolveComps (b ++ rel) = b ++ rel := by
    intro rel hrel
    exact resolveComps_wf_append hb (hfs rel hrel).2
  have hmem : ∀ p, p ∈ find_dead_pages b fs refs ↔
      ((∃ rel ∈ fs, strEndsWith (rel.getLastD "") ".md" = true ∧
          rel.getLastD "" ≠ "SUMMARY.md" ∧ p = b ++ rel) ∧ p ∉ refs) := by
    intro p
    unfold find_dead_pages
    rw [mem_sortPaths, List.mem_filter, List.mem_map]
    constructor
    · rintro ⟨⟨rel, hrel, rfl⟩, hnot⟩
      rw [List.mem_filter] at hrel
      obtain ⟨hrel1, hname⟩ := hrel
      rw [List.mem_filter] at hrel1
      obtain ⟨hfs1, hmd⟩ := hrel1
      rw [hresolve rel hfs1] at hnot ⊢
      exact ⟨⟨rel, hfs1, hmd, by simpa using hname, rfl⟩, by simpa using hnot⟩
    · rintro ⟨⟨rel, hfs1, hmd, hname, rfl⟩, hnot⟩
      refine ⟨⟨rel, ?_, hresolve rel hfs1⟩, ?_⟩
      · rw [List.mem_filter]
        refine ⟨?_, by simpa using hname⟩
        rw [List.mem_filter]
        exact ⟨hfs1, hmd⟩
      · simpa using hnot
  have hnodup : (find_dead_pages b fs refs).Nodup := by
    unfold find_dead_pages
    rw [List.Perm.nodup_iff (sortPaths_perm _)]
    apply List.Nodup.filter
    apply List.Nodup.map_on
    · intro x hx y hy hxy
      rw [List.mem_filter] at hx hy
      obtain ⟨hx, _⟩ := hx
      obtain ⟨hy, _⟩ := hy
      rw [List.mem_filter] at hx hy
      rw [hresolve x hx.1, hresolve y hy.1] at hxy
      exact List.append_cancel_left hxy
    · exact (hnd.filter _).filter _
  refine ⟨?_, hnodup, hmem, ?_⟩
  · unfold find_dead_pages
    exact sortPaths_sorted _
  · intro p hp
    obtain ⟨⟨rel, hrel, hmd, _, rfl⟩, _⟩ := (hmem p).mp hp
    refine ⟨?_, rel, hrel, rfl⟩
    rw [getLastD_append (hfs rel hrel).1]
    exact hmd

/-- C1 witness: a concrete well-formed tree with one dead page. -/
theorem find_dead_pages_spec_witness :
    wfPath (["home", "book", "src"] : AbsPath) ∧
    wfTree [["SUMMARY.md"], ["intro.md"], ["guide", "start.md"], ["orphan.md"], ["img.png"]] ∧
    ([["SUMMARY.md"], ["intro.md"], ["guide", "start.md"], ["orphan.md"],
        ["img.png"]] : List (List String)).Nodup ∧
    ((find_dead_pages ["home", "book", "src"]
        [["SUMMARY.md"], ["intro.md"], ["guide", "start.md"], ["orphan.md"], ["img.png"]]
        (parse_summary ["home", "book", "src"]
          "[i](intro.md) [g](guide/start.md)")).Sorted (fun p q => pathLe p q = true) ∧
      (find_dead_pages ["home", "book", "src"]
        [["SUMMARY.md"], ["intro.md"], ["guide", "start.md"], ["orphan.md"], ["img.png"]]
        (parse_summary ["home", "book", "src"]
          "[i](intro.md) [g](guide/start.md)")).Nodup ∧
      (∀ p, p ∈ find_dead_pages ["home", "book", "src"]
          [["SUMMARY.md"], ["intro.md"], ["guide", "start.md"], ["orphan.md"], ["img.png"]]
          (parse_summary ["home", "book", "src"]
            "[i](intro.md) [g](guide/start.md)") ↔
        ((∃ rel ∈ [["SUMMARY.md"], ["intro.md"], ["guide", "start.md"], ["orphan.md"],
              ["img.png"]],
            strEndsWith (rel.getLastD "") ".md" = true ∧
            rel.getLastD "" ≠ "SUMMARY.md" ∧ p = ["home", "book", "src"] ++ rel) ∧
          p ∉ parse_summary ["home", "book", "src"]
            "[i](intro.md) [g](guide/start.md)")) ∧
      (∀ p ∈ find_dead_pages ["home", "book", "src"]
          [["SUMMARY.md"], ["intro.md"], ["guide", "start.md"], ["orphan.md"], ["img.png"]]
          (parse_summary ["home", "book", "src"]
            "[i](intro.md) [g](guide/start.md)"),
        strEndsWith (p.getLastD "") ".md" = true ∧
          ∃ rel ∈ [["SUMMARY.md"], ["intro.md"], ["guide", "start.md"], ["orphan.md"],
              ["img.png"]],
            p = ["home", "book", "src"] ++ rel)) :=
  ⟨by decide, by decide, by decide,
    find_dead_pages_spec ["home", "book", "src"] _ _ (by decide) (by decide) (by decide)⟩

/-! ## C2 — exit codes -/

/-- C2: the exit status is 0 iff the locator succeeded (the book source
directory exists and `SUMMARY.md` is among its files) and the dead-page
list is empty; it is 1 exactly when the locator fails or the dead-page
list is non-empty. -/
theorem exit_code_spec (t : BookTree) :
    ((run t).exitCode = 0 ↔
      (t.bookSrcExists = true ∧ ["SUMMARY.md"] ∈ t.files ∧
        find_dead_pages t.bookSrc t.files (parse_summary t.bookSrc t.summaryContent) = [])) ∧
    ((run t).exitCode = 1 ↔
      ¬ (t.bookSrcExists = true ∧ ["SUMMARY.md"] ∈ t.files ∧
        find_dead_pages t.bookSrc t.files (parse_summary t.bookSrc t.summaryContent) = [])) := by
  by_cases h1 : t.bookSrcExists = true
  · by_cases h2 : ["SUMMARY.md"] ∈ t.files
    · rw [run_ok t h1 h2]
      by_cases h3 :
          find_dead_pages t.bookSrc t.files (parse_summary t.bookSrc t.summaryContent) = []
      · rw [if_pos (List.isEmpty_iff.mpr h3)]
        simp [h1, h2, h3]
      · rw [if_neg (by simpa [List.isEmpty_iff] using h3)]
        simp [h1, h2, h3]
    · rw [run_summary_missing t h1 h2]
      simp [h1, h2]
  · have h1' : t.bookSrcExists = false := by simpa using h1
    rw [run_locator_failed t h1']
    simp [h1']

/-! ## C8 — determinism -/

/-- The dead-page list does not depend on the order in which the
directory walk enumerates the tree. -/
theorem find_dead_pages_of_perm (b : AbsPath) (refs : Finset AbsPath)
    {fs fs' : List (List String)} (hp : fs.Perm fs') :
    find_dead_pages b fs refs = find_dead_pages b fs' refs := by
  unfold find_dead_pages
  refine List.eq_of_perm_of_sorted ?_ (sortPaths_sorted _) (sortPaths_sorted _)
  exact ((sortPaths_perm _).trans ((((hp.filter _).filter _).map _).filter _)).trans
    (sortPaths_perm _).symm

/-- C8: the pipeline is deterministic: its observable outcome is a
function of the tree contents alone, so a second run over the unchanged
tree — even if the directory walk enumerates the files in a different
order — produces the identical dead-page list, report, and exit code. -/
theorem run_deterministic (ex : Bool) (b : AbsPath) (fs fs' : List (List String))
    (content : String) (hp : fs.Perm fs') :
    run (BookTree.mk ex b fs content) = run (BookTree.mk ex b fs' content) := by
  have hdead : find_dead_pages b fs (parse_summary b content) =
      find_dead_pages b fs' (parse_summary b content) :=
    find_dead_pages_of_perm b (parse_summary b content) hp
  by_cases h1 : ex = true
  · by_cases h2 : ["SUMMARY.md"] ∈ fs
    · rw [run_ok (BookTree.mk ex b fs content) h1 h2,
        run_ok (BookTree.mk ex b fs' content) h1 (hp.mem_iff.mp h2)]
      dsimp only
      rw [hdead]
    · rw [run_summary_missing (BookTree.mk ex b fs content) h1 h2,
        run_summary_missing (BookTree.mk ex b fs' content) h1 (fun hm => h2 (hp.mem_iff.mpr hm))]
  · have h1' : ex = false := by simpa using h1
    rw [run_locator_failed (BookTree.mk ex b fs content) h1',
      run_locator_failed (BookTree.mk ex b fs' content) h1']

/-- C8 witness: the same tree walked in two different orders yields the
identical outcome. -/
theorem run_deterministic_witness :
    (List.Perm [["intro.md"], ["orphan.md"], ["SUMMARY.md"]]
      [["SUMMARY.md"], ["orphan.md"], ["intro.md"]]) ∧
    run (BookTree.mk true ["home", "book", "src"]
        [["intro.md"], ["orphan.md"], ["SUMMARY.md"]] "[i](intro.md)") =
      run (BookTree.mk true ["home", "book", "src"]
        [["SUMMARY.md"], ["orphan.md"], ["intro.md"]] "[i](intro.md)") :=
  ⟨by decide,
    run_deterministic true ["home", "book", "src"]
      [["intro.md"], ["orphan.md"], ["SUMMARY.md"]]
      [["SUMMARY.md"], ["orphan.md"], ["intro.md"]] "[i](intro.md)" (by decide)⟩

end DeadPages
